import Mathlib

/-!
Verification development for the BACI chart/auth repository.

The repository contains two artifacts:

* `StackedBarChartSVG` (a d3-based normalized stacked horizontal bar chart):
  we embed its data pipeline — accessor application, domain resolution and
  interning, index filtering, height/range derivation, the
  `rollup`/`stack` computation with `stackOrderNone`/`stackOffsetExpand`
  (the source defaults; no claim varies them), the linear and band scales,
  and the emitted `rect`/`image` attributes including the glyph `href`
  lookup.  JavaScript numbers are modelled as exact rationals; the `NaN`
  values that arise from missing (category, series) cells (an absent key in
  the inner rollup map gives `X[undefined] = undefined`, coerced to `NaN`
  by `d3.stack`) are modelled as `Option ℚ` with `none` for `NaN`,
  propagated exactly where JavaScript propagates `NaN`.  The axes, the
  color scale and the title accessor are not referenced by any claim and
  are not embedded.

* the MSAL `loggerOptions.loggerCallback` from `authConfig.js`, embedded as
  a routing function from (level, message, containsPii) to an optional
  output sink.

Rational arithmetic is expressed through kernel-reducible wrappers
(`jadd`, `jsub`, `jmul`, `jdiv`, …) defined via `Rat.divInt`, each proved
equal to the corresponding field operation on `ℚ`, so that concrete
executions of the embedding can be checked by `decide`.
-/

/-- Kernel-reducible addition on `ℚ` (avoids the irreducible `Rat.add`). -/
def jadd (a b : ℚ) : ℚ := Rat.divInt (a.num * b.den + b.num * a.den) (a.den * b.den)

/-- Kernel-reducible negation on `ℚ`. -/
def jneg (a : ℚ) : ℚ := Rat.divInt (-a.num) a.den

/-- Kernel-reducible subtraction on `ℚ`. -/
def jsub (a b : ℚ) : ℚ := jadd a (jneg b)

/-- Kernel-reducible multiplication on `ℚ`. -/
def jmul (a b : ℚ) : ℚ := Rat.divInt (a.num * b.num) (a.den * b.den)

/-- Kernel-reducible inverse on `ℚ` (`jinv 0 = 0`, as for `Rat.inv`). -/
def jinv (a : ℚ) : ℚ := Rat.divInt a.den a.num

/-- Kernel-reducible division on `ℚ` (division by `0` yields `0`). -/
def jdiv (a b : ℚ) : ℚ := jmul a (jinv b)

/-- Kernel-reducible cast of a natural number into `ℚ`. -/
def qnat (n : ℕ) : ℚ := Rat.divInt n 1

/-- Sum of a list of rationals via `jadd`. -/
def jsum (l : List ℚ) : ℚ := l.foldr jadd 0

/-- JavaScript `Math.min` on possibly-`NaN` numbers: `NaN` absorbs. -/
def omin2 : Option ℚ → Option ℚ → Option ℚ
  | some a, some b => some (min a b)
  | _, _ => none

/-- JavaScript `Math.abs(a - b)` on possibly-`NaN` numbers: `NaN` propagates. -/
def oabs2 : Option ℚ → Option ℚ → Option ℚ
  | some a, some b => some |jsub a b|
  | _, _ => none

/-- JavaScript `a + b` on possibly-`NaN` numbers: `NaN` propagates. -/
def oadd2 : Option ℚ → Option ℚ → Option ℚ
  | some a, some b => some (jadd a b)
  | _, _ => none

/-- First-seen-order deduplication: the behaviour of `new d3.InternSet(xs)`
iterated in insertion order (source line 41-42). -/
def uniqFirst {β : Type} [DecidableEq β] (l : List β) : List β :=
  l.foldl (fun acc a => if a ∈ acc then acc else acc ++ [a]) []

/-- Minimum and maximum of a list of (real, non-`NaN`) numbers, `none` on the
empty list: the behaviour of `d3.extent` after `NaN`/`undefined` entries have
been removed. -/
def extent2 (l : List ℚ) : Option (ℚ × ℚ) :=
  match l.min?, l.max? with
  | some a, some b => some (a, b)
  | _, _ => none

namespace StackedBar

/-- The configuration object of `StackedBarChartSVG` (source lines 8-31).
Accessors receive the record and its index, as with `d3.map`.  `Option`
fields model parameters whose absence (`undefined`) triggers the derived
default.  The stack offset and order are fixed to the source defaults
`d3.stackOffsetExpand` and `d3.stackOrderNone` (lines 26-27). -/
structure ChartConfig (α κ : Type) where
  x : α → ℕ → ℚ
  y : α → ℕ → κ
  z : α → ℕ → ℤ
  marginTop : ℚ := 30
  marginRight : ℚ := 20
  marginBottom : ℚ := 0
  marginLeft : ℚ := 200
  width : ℚ := 640
  height? : Option ℚ := none
  xDomain? : Option (ℚ × ℚ) := none
  xRange? : Option (ℚ × ℚ) := none
  yDomain? : Option (List κ) := none
  yRange? : Option (ℚ × ℚ) := none
  yPadding : ℚ := mkRat 1 10
  zDomain? : Option (List ℤ) := none

variable {α κ : Type} [DecidableEq κ] [Inhabited κ]

/-- `X = d3.map(data, x)` (source line 34). -/
def Xv (cfg : ChartConfig α κ) (data : List α) : List ℚ :=
  data.mapIdx (fun i d => cfg.x d i)

/-- `Y = d3.map(data, y)` (source line 35). -/
def Yv (cfg : ChartConfig α κ) (data : List α) : List κ :=
  data.mapIdx (fun i d => cfg.y d i)

/-- `Z = d3.map(data, z)` (source line 36). -/
def Zv (cfg : ChartConfig α κ) (data : List α) : List ℤ :=
  data.mapIdx (fun i d => cfg.z d i)

/-- Array access `X[i]` (in-range everywhere it is used with a real index). -/
def Xf (cfg : ChartConfig α κ) (data : List α) (i : ℕ) : ℚ :=
  (Xv cfg data).getD i 0

/-- Array access `Y[i]`. -/
def Yf (cfg : ChartConfig α κ) (data : List α) (i : ℕ) : κ :=
  (Yv cfg data).getD i default

/-- Array access `Z[i]`. -/
def Zf (cfg : ChartConfig α κ) (data : List α) (i : ℕ) : ℤ :=
  (Zv cfg data).getD i 0

/-- Resolved y-domain: supplied domain or `Y`, interned in first-seen order
(source lines 39-42). -/
def yDom (cfg : ChartConfig α κ) (data : List α) : List κ :=
  uniqFirst (cfg.yDomain?.getD (Yv cfg data))

/-- Resolved z-domain: supplied domain or `Z`, interned in first-seen order
(source lines 40-42). -/
def zDom (cfg : ChartConfig α κ) (data : List α) : List ℤ :=
  uniqFirst (cfg.zDomain?.getD (Zv cfg data))

/-- Filtered index list
`I = d3.range(X.length).filter(i => yDomain.has(Y[i]) && zDomain.has(Z[i]))`
(source lines 45-47). -/
def idxs (cfg : ChartConfig α κ) (data : List α) : List ℕ :=
  (List.range (Xv cfg data).length).filter
    (fun i => decide (Yf cfg data i ∈ yDom cfg data ∧ Zf cfg data i ∈ zDom cfg data))

/-- Outer height: supplied, or `yDomain.size * 25 + marginTop + marginBottom`
(source lines 50-51). -/
def heightVal (cfg : ChartConfig α κ) (data : List α) : ℚ :=
  cfg.height?.getD (jadd (jadd (jmul (qnat (yDom cfg data).length) 25) cfg.marginTop) cfg.marginBottom)

/-- y-range: supplied, or `[height - marginBottom, marginTop]` (source line 52). -/
def yRangeVal (cfg : ChartConfig α κ) (data : List α) : ℚ × ℚ :=
  cfg.yRange?.getD (jsub (heightVal cfg data) cfg.marginBottom, cfg.marginTop)

/-- x-range: supplied, or `[marginLeft, width - marginRight]` (source line 21). -/
def xRangeVal (cfg : ChartConfig α κ) : ℚ × ℚ :=
  cfg.xRange?.getD (cfg.marginLeft, jsub cfg.width cfg.marginRight)

/-- Keys of the outer `d3.rollup` map: the distinct `Y[i]` over `i ∈ I` in
first-seen order; `d3.stack` iterates the rollup map in this order
(source lines 65-70). -/
def rowKeys (cfg : ChartConfig α κ) (data : List α) : List κ :=
  uniqFirst ((idxs cfg data).map (Yf cfg data))

/-- Lookup in the inner rollup map: the first filtered index carrying the
given (category, series) pair, `none` when the cell has no record.  The
reducer `([i]) => i` keeps the first element of each group (source lines
65-71), and `I.get(z)` is `undefined` for an absent series key. -/
def cellIdx (cfg : ChartConfig α κ) (data : List α) (yv : κ) (zv : ℤ) : Option ℕ :=
  ((idxs cfg data).filter (fun i => decide (Yf cfg data i = yv))).find?
    (fun i => decide (Zf cfg data i = zv))

/-- Raw stacked value of a cell: `+X[I.get(z)]`, which is `NaN` (here `none`)
for a missing cell (source line 62). -/
def v0 (cfg : ChartConfig α κ) (data : List α) (yv : κ) (zv : ℤ) : Option ℚ :=
  (cellIdx cfg data yv zv).map (Xf cfg data)

/-- Per-row sum `y += series[i][j][1] || 0` of `d3.stackOffsetExpand`
(`NaN` counts as `0`). -/
def rowSum (cfg : ChartConfig α κ) (data : List α) (yv : κ) : ℚ :=
  jsum ((zDom cfg data).map (fun zv => (v0 cfg data yv zv).getD 0))

/-- Upper value after the expand normalisation `series[i][j][1] /= y`,
applied only when the row sum is non-zero (`if (y)`); `NaN` stays `NaN`. -/
def hi1 (cfg : ChartConfig α κ) (data : List α) (yv : κ) (zv : ℤ) : Option ℚ :=
  if rowSum cfg data yv = 0 then v0 cfg data yv zv
  else (v0 cfg data yv zv).map (fun t => jdiv t (rowSum cfg data yv))

end StackedBar

/-- Cumulative pass of `d3.stackOffsetNone` along the series of one row
(`s1[j][1] += s1[j][0] = isNaN(s0[j][1]) ? s0[j][0] : s0[j][1]`): the lower
bound is the previous upper bound when that is real, and otherwise the
previous lower bound (hence always real); the upper bound adds the carried
lower bound and stays `NaN` for a missing cell. -/
def cumAux : ℚ → Option ℚ → List (Option ℚ) → List (ℚ × Option ℚ)
  | _, _, [] => []
  | loPrev, hiPrev, v :: vs =>
    (hiPrev.getD loPrev, v.map (fun t => jadd t (hiPrev.getD loPrev))) ::
      cumAux (hiPrev.getD loPrev) (v.map (fun t => jadd t (hiPrev.getD loPrev))) vs

/-- Real-valued stacking used in proofs: cumulative (start, end) pairs of a
list of segment lengths starting from a given accumulator. -/
def stackReal : ℚ → List ℚ → List (ℚ × ℚ)
  | _, [] => []
  | acc, v :: vs => (acc, jadd v acc) :: stackReal (jadd v acc) vs

namespace StackedBar

variable {α κ : Type} [DecidableEq κ] [Inhabited κ]

/-- The `[x1, x2]` pairs of one rollup row across the z-domain, after
`offset(expand)` ran: the first series keeps `[0, v]`, later series get the
cumulative bounds of `cumAux` (source lines 59-71). -/
def rowSegs (cfg : ChartConfig α κ) (data : List α) (yv : κ) : List (ℚ × Option ℚ) :=
  match (zDom cfg data).map (hi1 cfg data yv) with
  | [] => []
  | v :: vs => (0, v) :: cumAux 0 v vs

/-- All numeric stack boundaries, as scanned by
`d3.extent(series.flat(2))`: every lower bound, and every upper bound that
is a number (`d3.extent` skips `NaN`) (source line 75). -/
def allBounds (cfg : ChartConfig α κ) (data : List α) : List ℚ :=
  (rowKeys cfg data).flatMap
    (fun yv => (rowSegs cfg data yv).flatMap (fun s => s.1 :: s.2.toList))

/-- Resolved x-domain: supplied, or the extent of all stack boundaries
(`undefined` — `none` — when there are none) (source line 75). -/
def xDomainVal (cfg : ChartConfig α κ) (data : List α) : Option (ℚ × ℚ) :=
  match cfg.xDomain? with
  | some d => some d
  | none => extent2 (allBounds cfg data)

end StackedBar

/-- `d3.scaleLinear(domain, range)` applied to a possibly-`NaN` input: for a
degenerate domain the interpolator receives the constant `0.5`; a `NaN`
input or an `undefined` domain yields `NaN` (source line 78). -/
def scaleLin (dom : Option (ℚ × ℚ)) (rg : ℚ × ℚ) : Option ℚ → Option ℚ
  | some t =>
    match dom with
    | some (d0, d1) =>
      if jsub d1 d0 = 0 then some (jadd rg.1 (jmul (mkRat 1 2) (jsub rg.2 rg.1)))
      else some (jadd rg.1 (jmul (jdiv (jsub t d0) (jsub d1 d0)) (jsub rg.2 rg.1)))
    | none => none
  | none => none

/-- The band step of `d3.scaleBand` with `paddingInner = p`,
`paddingOuter = 0`: `(stop - start) / max(1, n - p)` where `start`/`stop`
are the range endpoints in increasing order (d3-scale `band.rescale`). -/
def bandStep (n : ℕ) (r0 r1 p : ℚ) : ℚ :=
  jdiv (jsub (if r1 < r0 then r0 else r1) (if r1 < r0 then r1 else r0))
    (max 1 (jsub (qnat n) p))

/-- The aligned start of the first band of `d3.scaleBand` with
`paddingOuter = 0`, `align = 0.5`:
`start + (stop - start - step * (n - paddingInner)) * align`
(d3-scale `band.rescale`). -/
def bandStart2 (n : ℕ) (r0 r1 p : ℚ) : ℚ :=
  jadd (if r1 < r0 then r1 else r0)
    (jmul (jsub (jsub (if r1 < r0 then r0 else r1) (if r1 < r0 then r1 else r0))
      (jmul (bandStep n r0 r1 p) (jsub (qnat n) p))) (mkRat 1 2))

/-- The i-th value `start + step * i` of `d3.scaleBand`'s internal position
sequence, before the reversal for a decreasing range. -/
def bandPos1 (n : ℕ) (r0 r1 p : ℚ) (i : ℕ) : ℚ :=
  jadd (bandStart2 n r0 r1 p) (jmul (bandStep n r0 r1 p) (qnat i))

/-- The start positions of the bands of `d3.scaleBand` with
`paddingInner = p`, `paddingOuter = 0`, `align = 0.5`, no rounding: values
`start + step * i` for `i < n`, reversed when the range is decreasing
(d3-scale `band.rescale`). -/
def bandPositions (n : ℕ) (r0 r1 p : ℚ) : List ℚ :=
  if r1 < r0 then ((List.range n).map (bandPos1 n r0 r1 p)).reverse
  else (List.range n).map (bandPos1 n r0 r1 p)

namespace StackedBar

variable {α κ : Type} [DecidableEq κ] [Inhabited κ]

/-- `yScale = d3.scaleBand(yDomain, yRange).paddingInner(yPadding)` applied
to a value: the band start of the value's position in the y-domain, or
`undefined` for an unknown value (source line 79). -/
def yScalePos (cfg : ChartConfig α κ) (data : List α) (v : κ) : Option ℚ :=
  ((yDom cfg data).findIdx? (fun b => decide (b = v))).bind
    (fun j => (bandPositions (yDom cfg data).length (yRangeVal cfg data).1
        (yRangeVal cfg data).2 cfg.yPadding).get? j)

/-- `yScale.bandwidth() = step * (1 - paddingInner)`. -/
def bandwidthVal (cfg : ChartConfig α κ) (data : List α) : ℚ :=
  jmul (bandStep (yDom cfg data).length (yRangeVal cfg data).1
      (yRangeVal cfg data).2 cfg.yPadding)
    (jsub 1 cfg.yPadding)

/-- `xScale` applied to a stack boundary (source lines 78, 109-111). -/
def sx (cfg : ChartConfig α κ) (data : List α) (v : Option ℚ) : Option ℚ :=
  scaleLin (xDomainVal cfg data) (xRangeVal cfg) v

/-- Rect/image attribute `x = Math.min(xScale(x1), xScale(x2))`
(source lines 109, 124). -/
def segX (cfg : ChartConfig α κ) (data : List α) (seg : ℚ × Option ℚ) : Option ℚ :=
  omin2 (sx cfg data (some seg.1)) (sx cfg data seg.2)

/-- Rect/image attribute `width = Math.abs(xScale(x1) - xScale(x2))`
(source lines 111, 126). -/
def segW (cfg : ChartConfig α κ) (data : List α) (seg : ℚ × Option ℚ) : Option ℚ :=
  oabs2 (sx cfg data (some seg.1)) (sx cfg data seg.2)

/-- Rect/image attribute `y = yScale(Y[i])` through the entry's back
reference `i` (for a missing cell, `Y[undefined]` is `undefined` and the
band scale returns `undefined`) (source lines 110, 125). -/
def segY (cfg : ChartConfig α κ) (data : List α) (yv : κ) (zv : ℤ) : Option ℚ :=
  (cellIdx cfg data yv zv).bind (fun i => yScalePos cfg data (Yf cfg data i))

end StackedBar

/-- An emitted `rect` element (source lines 108-112). -/
structure RectEl where
  x : Option ℚ
  y : Option ℚ
  w : Option ℚ
  h : ℚ
deriving DecidableEq

/-- An emitted `image` element (source lines 114-127). -/
structure ImageEl where
  href : Option String
  x : Option ℚ
  y : Option ℚ
  w : Option ℚ
  h : ℚ
deriving DecidableEq

/-- The fixed glyph list of the image overlay (source lines 118-122). -/
def glyphList : List String :=
  ["/images/sad-button.png", "/images/neutral-button.png", "/images/happy-button.png"]

/-- The glyph lookup `[...][Z[i] - 1]`: a JavaScript array indexed outside
`{0, 1, 2}` yields `undefined` (source line 122). -/
def glyphHref (zv : ℤ) : Option String :=
  if zv - 1 < 0 then none else glyphList.get? (zv - 1).toNat

namespace StackedBar

variable {α κ : Type} [DecidableEq κ] [Inhabited κ]

/-- One emitted `rect` (source lines 108-112). -/
def segRect (cfg : ChartConfig α κ) (data : List α) (yv : κ) (zv : ℤ)
    (seg : ℚ × Option ℚ) : RectEl :=
  { x := segX cfg data seg
    y := segY cfg data yv zv
    w := segW cfg data seg
    h := bandwidthVal cfg data }

/-- One emitted `image`, with the glyph `href` selected by `Z[i] - 1`
(for a missing cell `Z[undefined] - 1` is `NaN` and the lookup is
`undefined`) (source lines 114-127). -/
def segImage (cfg : ChartConfig α κ) (data : List α) (yv : κ) (zv : ℤ)
    (seg : ℚ × Option ℚ) : ImageEl :=
  { href := (cellIdx cfg data yv zv).bind (fun i => glyphHref (Zf cfg data i))
    x := segX cfg data seg
    y := segY cfg data yv zv
    w := segW cfg data seg
    h := bandwidthVal cfg data }

/-- All emitted rects, one group per series (z-domain order), one rect per
rollup row (source lines 100-112). -/
def rects (cfg : ChartConfig α κ) (data : List α) : List (List RectEl) :=
  (zDom cfg data).enum.map (fun kz =>
    (rowKeys cfg data).map (fun yv =>
      segRect cfg data yv kz.2 ((rowSegs cfg data yv).getD kz.1 (0, none))))

/-- All emitted overlay images, in the same grid as `rects`
(source lines 114-127). -/
def images (cfg : ChartConfig α κ) (data : List α) : List (List ImageEl) :=
  (zDom cfg data).enum.map (fun kz =>
    (rowKeys cfg data).map (fun yv =>
      segImage cfg data yv kz.2 ((rowSegs cfg data yv).getD kz.1 (0, none))))

/-- The (category, series) pair of every emitted stacked segment, in
emission order. -/
def segPairs (cfg : ChartConfig α κ) (data : List α) : List (κ × ℤ) :=
  (zDom cfg data).flatMap (fun zv => (rowKeys cfg data).map (fun yv => (yv, zv)))

/-- The pixel widths of one row's segments, in series order. -/
def rowWidths (cfg : ChartConfig α κ) (data : List α) (yv : κ) : List (Option ℚ) :=
  (rowSegs cfg data yv).map (segW cfg data)

/-- The sum of one row's segment widths (`NaN` if any width is `NaN`). -/
def rowWidthSum (cfg : ChartConfig α κ) (data : List α) (yv : κ) : Option ℚ :=
  (rowWidths cfg data yv).foldr oadd2 (some 0)

/-- Proof-side view of one row's normalised segment lengths: the raw cell
value (0 for a missing cell) divided by the row sum. -/
def wsRow (cfg : ChartConfig α κ) (data : List α) (yv : κ) : List ℚ :=
  (zDom cfg data).map (fun zv => jdiv ((v0 cfg data yv zv).getD 0) (rowSum cfg data yv))

end StackedBar

/-- Real-valued stacking of a whole row, used in proofs: the first segment is
`(0, w)` and later segments continue cumulatively. -/
def stackRow : List ℚ → List (ℚ × ℚ)
  | [] => []
  | w :: ws => (0, w) :: stackReal w ws

/-- Record shape used by the concrete examples: (category, series, quantity). -/
abbrev SRec : Type := String × ℤ × ℚ

/-- Configuration extracting the three fields of an `SRec`, all other options
left at their defaults. -/
def recCfg : StackedBar.ChartConfig SRec String :=
  { x := fun d _ => d.2.2, y := fun d _ => d.1, z := fun d _ => d.2.1 }

/-- Scenario 1 records: `[{cat:"A",ser:1,q:3},{cat:"A",ser:2,q:1}]`. -/
def dataS1 : List SRec := [("A", 1, 3), ("A", 2, 1)]

/-- Records with a row whose quantities sum to zero: row "B" carries the
single quantity `0`. -/
def dataZeroRow : List SRec := [("A", 1, 3), ("B", 1, 0)]

/-- Configuration with an explicitly supplied four-member category domain. -/
def cfgFourCats : StackedBar.ChartConfig SRec String :=
  { recCfg with yDomain? := some ["a", "b", "c", "d"] }

/-- A record whose series value 4 lies outside the glyph enumeration. -/
def dataSer4 : List SRec := [("A", 4, 1)]

/-- Configuration whose supplied category domain contains only "B": records
with category "A" fall outside the domain. -/
def cfgOnlyB : StackedBar.ChartConfig SRec String :=
  { recCfg with yDomain? := some ["B"] }

/-- Configuration with an empty supplied category domain. -/
def cfgEmptyDom : StackedBar.ChartConfig SRec String :=
  { recCfg with yDomain? := some [] }

/-- A single well-formed record (used with `cfgEmptyDom`). -/
def dataOne : List SRec := [("A", 1, 3)]

/-- Two records colliding on the pair ("A", 1) with different quantities. -/
def dataDup : List SRec := [("A", 1, 3), ("A", 1, 1)]

/-- Two records in two distinct categories. -/
def dataTwoCats : List SRec := [("A", 1, 3), ("B", 1, 2)]

/-- Records where row "B" has no record for series 2: the cell ("B", 2) is
missing and its stacked boundary is `NaN`. -/
def dataMissingCell : List SRec := [("A", 1, 3), ("A", 2, 1), ("B", 1, 2)]

namespace AuthConfig

/-- The four severity levels named by the `switch` of the logger callback in
`authConfig.js` (lines 58-71). -/
inductive LogLevel where
  | error
  | info
  | verbose
  | warning
deriving DecidableEq

/-- The output sinks used by the logger callback: `console.error`,
`console.info`, `console.debug`, `console.warn`. -/
inductive LogSink where
  | errorSink
  | infoSink
  | debugSink
  | warnSink
deriving DecidableEq

/-- The `loggerCallback` of `msalConfig.system.loggerOptions`
(authConfig.js lines 54-72): returns the sink receiving the message, or
`none` when the message is suppressed. -/
def loggerCallback (level : LogLevel) (message : String) (containsPii : Bool) :
    Option (LogSink × String) :=
  if containsPii then none
  else
    match level with
    | .error => some (.errorSink, message)
    | .info => some (.infoSink, message)
    | .verbose => some (.debugSink, message)
    | .warning => some (.warnSink, message)

/-- Modelled from the spec: the severity-appropriate sink of each level
("error sink for Error, info sink for Info, debug sink for Verbose,
warning sink for Warning"). -/
def sinkFor : LogLevel → LogSink
  | .error => .errorSink
  | .info => .infoSink
  | .verbose => .debugSink
  | .warning => .warnSink

end AuthConfig

/-! ### Arithmetic layer: the kernel-reducible wrappers agree with `ℚ` -/

theorem qden_ne (a : ℚ) : ((a.den : ℚ)) ≠ 0 := by
  exact_mod_cast a.den_ne_zero

theorem jadd_eq (a b : ℚ) : jadd a b = a + b := by
  unfold jadd
  rw [Rat.divInt_eq_div]
  push_cast
  conv_rhs => rw [← Rat.num_div_den a, ← Rat.num_div_den b]
  rw [div_add_div _ _ (qden_ne a) (qden_ne b)]
  ring_nf

theorem jneg_eq (a : ℚ) : jneg a = -a := by
  unfold jneg
  rw [Rat.divInt_eq_div]
  push_cast
  rw [neg_div, Rat.num_div_den]

theorem jsub_eq (a b : ℚ) : jsub a b = a - b := by
  rw [jsub, jadd_eq, jneg_eq, sub_eq_add_neg]

theorem jmul_eq (a b : ℚ) : jmul a b = a * b := by
  unfold jmul
  rw [Rat.divInt_eq_div]
  push_cast
  conv_rhs => rw [← Rat.num_div_den a, ← Rat.num_div_den b]
  rw [div_mul_div_comm]

theorem jinv_eq (a : ℚ) : jinv a = a⁻¹ := by
  unfold jinv
  rw [Rat.divInt_eq_div]
  push_cast
  conv_rhs => rw [← Rat.num_div_den a]
  rw [inv_div]

theorem jdiv_eq (a b : ℚ) : jdiv a b = a / b := by
  rw [jdiv, jmul_eq, jinv_eq, div_eq_mul_inv]

theorem qnat_eq (n : ℕ) : qnat n = (n : ℚ) := by
  unfold qnat
  rw [Rat.divInt_eq_div]
  push_cast
  rw [div_one]

theorem jsum_eq (l : List ℚ) : jsum l = l.sum := by
  induction l with
  | nil => rfl
  | cons a t ih => simp [jsum, List.foldr_cons, jadd_eq, List.sum_cons] at *; rw [ih]

/-! ### `uniqFirst`: membership and distinctness -/

theorem uniqFirst_go_mem {β : Type} [DecidableEq β] (l : List β) (acc : List β) (x : β) :
    x ∈ l.foldl (fun acc a => if a ∈ acc then acc else acc ++ [a]) acc ↔ x ∈ acc ∨ x ∈ l := by
  induction l generalizing acc with
  | nil => simp
  | cons b t ih =>
    simp only [List.foldl_cons, ih, List.mem_cons]
    by_cases hb : b ∈ acc
    · rw [if_pos hb]
      constructor
      · rintro (h | h)
        · exact Or.inl h
        · exact Or.inr (Or.inr h)
      · rintro (h | h | h)
        · exact Or.inl h
        · exact Or.inl (h ▸ hb)
        · exact Or.inr h
    · rw [if_neg hb]
      simp only [List.mem_append, List.mem_singleton]
      tauto

theorem mem_uniqFirst {β : Type} [DecidableEq β] (l : List β) (x : β) :
    x ∈ uniqFirst l ↔ x ∈ l := by
  rw [uniqFirst, uniqFirst_go_mem]
  simp

theorem uniqFirst_go_nodup {β : Type} [DecidableEq β] (l : List β) (acc : List β)
    (h : acc.Nodup) :
    (l.foldl (fun acc a => if a ∈ acc then acc else acc ++ [a]) acc).Nodup := by
  induction l generalizing acc with
  | nil => exact h
  | cons b t ih =>
    simp only [List.foldl_cons]
    apply ih
    by_cases hb : b ∈ acc
    · rwa [if_pos hb]
    · rw [if_neg hb]
      exact h.append (List.nodup_singleton b)
        (fun x hx hxb => hb ((List.mem_singleton.mp hxb) ▸ hx))

theorem uniqFirst_nodup {β : Type} [DecidableEq β] (l : List β) : (uniqFirst l).Nodup :=
  uniqFirst_go_nodup l [] List.nodup_nil

/-! ### Basic pipeline lemmas -/

namespace StackedBar

variable {α κ : Type} [DecidableEq κ] [Inhabited κ]

theorem length_Xv (cfg : ChartConfig α κ) (data : List α) :
    (Xv cfg data).length = data.length :=
  List.length_mapIdx

theorem mem_idxs (cfg : ChartConfig α κ) (data : List α) (i : ℕ) :
    i ∈ idxs cfg data ↔
      i < data.length ∧ Yf cfg data i ∈ yDom cfg data ∧ Zf cfg data i ∈ zDom cfg data := by
  simp [idxs, List.mem_filter, List.mem_range, length_Xv, decide_eq_true_eq, and_assoc]

theorem find?_eq_head_filter {β : Type} (p : β → Bool) (l : List β) :
    l.find? p = (l.filter p).head? := by
  induction l with
  | nil => rfl
  | cons a t ih =>
    rw [List.find?_cons, List.filter_cons]
    by_cases h : p a
    · simp [h]
    · simp only [h]
      simpa [h] using ih

theorem cellIdx_mem (cfg : ChartConfig α κ) (data : List α) (yv : κ) (zv : ℤ) (i : ℕ)
    (h : cellIdx cfg data yv zv = some i) :
    i ∈ idxs cfg data ∧ Yf cfg data i = yv ∧ Zf cfg data i = zv := by
  have hmem := List.mem_of_find?_eq_some h
  have hz := List.find?_some h
  rw [List.mem_filter] at hmem
  refine ⟨hmem.1, ?_, ?_⟩
  · simpa using hmem.2
  · simpa using hz

theorem cellIdx_isSome_of (cfg : ChartConfig α κ) (data : List α) (i : ℕ)
    (h : i ∈ idxs cfg data) :
    (cellIdx cfg data (Yf cfg data i) (Zf cfg data i)).isSome := by
  rw [cellIdx, List.find?_isSome]
  exact ⟨i, by rw [List.mem_filter]; simp [h], by simp⟩

theorem idxs_sorted (cfg : ChartConfig α κ) (data : List α) :
    (idxs cfg data).Pairwise (· < ·) :=
  (List.pairwise_lt_range _).filter _

theorem mem_rowKeys (cfg : ChartConfig α κ) (data : List α) (yv : κ) :
    yv ∈ rowKeys cfg data ↔ ∃ i ∈ idxs cfg data, Yf cfg data i = yv := by
  rw [rowKeys, mem_uniqFirst]
  exact List.mem_map

theorem zDom_ne_nil_of_rowKeys (cfg : ChartConfig α κ) (data : List α) (yv : κ)
    (h : yv ∈ rowKeys cfg data) : zDom cfg data ≠ [] := by
  obtain ⟨i, hi, -⟩ := (mem_rowKeys cfg data yv).mp h
  have := ((mem_idxs cfg data i).mp hi).2.2
  intro hz
  rw [hz] at this
  exact absurd this (List.not_mem_nil _)

end StackedBar

/-! ### Stacking lemmas: real-valued rows -/

theorem cumAux_real (vs : List ℚ) : ∀ (lo a : ℚ),
    cumAux lo (some a) (vs.map some) = (stackReal a vs).map (fun p => (p.1, some p.2)) := by
  induction vs with
  | nil => intro lo a; rfl
  | cons v t ih =>
    intro lo a
    simp only [List.map_cons, cumAux, Option.getD_some, Option.map_some', stackReal, ih]

theorem stackReal_diffs (vs : List ℚ) : ∀ a,
    (stackReal a vs).map (fun p => jsub p.2 p.1) = vs := by
  induction vs with
  | nil => intro a; rfl
  | cons v t ih =>
    intro a
    simp only [stackReal, List.map_cons, ih, List.cons.injEq, and_true]
    rw [jsub_eq, jadd_eq]
    ring

theorem stackRow_diffs (ws : List ℚ) :
    (stackRow ws).map (fun p => jsub p.2 p.1) = ws := by
  cases ws with
  | nil => rfl
  | cons w t =>
    simp only [stackRow, List.map_cons, stackReal_diffs, List.cons.injEq, and_true]
    rw [jsub_eq]
    ring

theorem stackReal_bounds (vs : List ℚ) : ∀ a, 0 ≤ a → (∀ v ∈ vs, 0 ≤ v) →
    ∀ p ∈ stackReal a vs, a ≤ p.1 ∧ p.1 ≤ p.2 ∧ p.2 ≤ a + vs.sum := by
  induction vs with
  | nil => intro a _ _ p hp; exact absurd hp (List.not_mem_nil p)
  | cons v t ih =>
    intro a ha hnn p hp
    have hv : 0 ≤ v := hnn v (List.mem_cons_self v t)
    have hts : 0 ≤ t.sum := List.sum_nonneg (fun x hx => hnn x (List.mem_cons_of_mem v hx))
    rw [stackReal] at hp
    rcases List.mem_cons.mp hp with rfl | hp'
    · refine ⟨le_refl a, ?_, ?_⟩
      · simp only [jadd_eq]; linarith
      · simp only [jadd_eq, List.sum_cons]; linarith
    · obtain ⟨h1, h2, h3⟩ := ih (jadd v a) (by rw [jadd_eq]; linarith)
        (fun x hx => hnn x (List.mem_cons_of_mem v hx)) p hp'
      refine ⟨le_trans (by rw [jadd_eq]; linarith) h1, h2, ?_⟩
      rw [jadd_eq] at h3
      simp only [List.sum_cons]
      linarith

theorem stackRow_bounds (ws : List ℚ) (hnn : ∀ v ∈ ws, 0 ≤ v) :
    ∀ p ∈ stackRow ws, 0 ≤ p.1 ∧ p.1 ≤ p.2 ∧ p.2 ≤ ws.sum := by
  cases ws with
  | nil => intro p hp; exact absurd hp (List.not_mem_nil p)
  | cons w t =>
    intro p hp
    have hw : 0 ≤ w := hnn w (List.mem_cons_self w t)
    have hts : 0 ≤ t.sum := List.sum_nonneg (fun x hx => hnn x (List.mem_cons_of_mem w hx))
    rw [stackRow] at hp
    rcases List.mem_cons.mp hp with rfl | hp'
    · exact ⟨le_refl 0, hw, by simp only [List.sum_cons]; linarith⟩
    · obtain ⟨h1, h2, h3⟩ := stackReal_bounds t w hw
        (fun x hx => hnn x (List.mem_cons_of_mem w hx)) p hp'
      exact ⟨le_trans hw h1, h2, by simp only [List.sum_cons]; linarith⟩

theorem stackReal_last (vs : List ℚ) : ∀ a, vs ≠ [] →
    ∃ p ∈ stackReal a vs, p.2 = a + vs.sum := by
  induction vs with
  | nil => intro a h; exact absurd rfl h
  | cons v t ih =>
    intro a _
    by_cases ht : t = []
    · subst ht
      refine ⟨(a, jadd v a), List.mem_cons_self _ _, ?_⟩
      rw [jadd_eq]; simp [List.sum_cons]; ring
    · obtain ⟨p, hp, he⟩ := ih (jadd v a) ht
      refine ⟨p, List.mem_cons_of_mem _ hp, ?_⟩
      rw [he, jadd_eq, List.sum_cons]; ring

theorem stackRow_last (ws : List ℚ) (h : ws ≠ []) :
    ∃ p ∈ stackRow ws, p.2 = ws.sum := by
  cases ws with
  | nil => exact absurd rfl h
  | cons w t =>
    by_cases ht : t = []
    · subst ht
      exact ⟨(0, w), List.mem_cons_self _ _, by simp⟩
    · obtain ⟨p, hp, he⟩ := stackReal_last t w ht
      exact ⟨p, List.mem_cons_of_mem _ hp, by rw [he, List.sum_cons]⟩

theorem stackRow_head (ws : List ℚ) (h : ws ≠ []) :
    ∃ p ∈ stackRow ws, p.1 = 0 := by
  cases ws with
  | nil => exact absurd rfl h
  | cons w t => exact ⟨(0, w), List.mem_cons_self _ _, rfl⟩

theorem oadd2_fold (l : List ℚ) : (l.map some).foldr oadd2 (some 0) = some l.sum := by
  induction l with
  | nil => simp [oadd2]
  | cons a t ih => simp [oadd2, ih, jadd_eq]

/-! ### Row characterisation under complete, positive rows -/

namespace StackedBar

variable {α κ : Type} [DecidableEq κ] [Inhabited κ]

theorem rowSum_nonneg (cfg : ChartConfig α κ) (data : List α)
    (hpos : ∀ i ∈ idxs cfg data, 0 ≤ Xf cfg data i) (yv : κ) :
    0 ≤ rowSum cfg data yv := by
  rw [rowSum, jsum_eq]
  apply List.sum_nonneg
  intro x hx
  rw [List.mem_map] at hx
  obtain ⟨zv, hzv, rfl⟩ := hx
  rcases hcell : cellIdx cfg data yv zv with _ | i
  · simp [v0, hcell]
  · have hmem := cellIdx_mem cfg data yv zv i hcell
    simp only [v0, hcell, Option.map_some', Option.getD_some]
    exact hpos i hmem.1

theorem wsRow_length (cfg : ChartConfig α κ) (data : List α) (yv : κ) :
    (wsRow cfg data yv).length = (zDom cfg data).length := by
  rw [wsRow, List.length_map]

theorem map_hi1_eq (cfg : ChartConfig α κ) (data : List α) (yv : κ)
    (hcomp : ∀ zv ∈ zDom cfg data, (cellIdx cfg data yv zv).isSome)
    (hs : rowSum cfg data yv ≠ 0) :
    (zDom cfg data).map (hi1 cfg data yv) = (wsRow cfg data yv).map some := by
  rw [wsRow, List.map_map]
  apply List.map_congr_left
  intro zv hz
  obtain ⟨i, hi⟩ := Option.isSome_iff_exists.mp (hcomp zv hz)
  simp [hi1, if_neg hs, v0, hi, Function.comp]

theorem wsRow_sum (cfg : ChartConfig α κ) (data : List α) (yv : κ)
    (hs : rowSum cfg data yv ≠ 0) :
    (wsRow cfg data yv).sum = 1 := by
  have hr : ((zDom cfg data).map (fun zv => (v0 cfg data yv zv).getD 0)).sum
      = rowSum cfg data yv := by
    rw [rowSum, jsum_eq]
  rw [wsRow]
  simp only [jdiv_eq, div_eq_mul_inv]
  rw [List.sum_map_mul_right, hr, mul_inv_cancel₀ hs]

theorem wsRow_nonneg (cfg : ChartConfig α κ) (data : List α) (yv : κ)
    (hpos : ∀ i ∈ idxs cfg data, 0 ≤ Xf cfg data i) :
    ∀ w ∈ wsRow cfg data yv, 0 ≤ w := by
  intro w hw
  rw [wsRow, List.mem_map] at hw
  obtain ⟨zv, _, rfl⟩ := hw
  rw [jdiv_eq]
  apply div_nonneg _ (rowSum_nonneg cfg data hpos yv)
  rcases hcell : cellIdx cfg data yv zv with _ | i
  · simp [v0, hcell]
  · have hmem := cellIdx_mem cfg data yv zv i hcell
    simp only [v0, hcell, Option.map_some', Option.getD_some]
    exact hpos i hmem.1

theorem rowSegs_real (cfg : ChartConfig α κ) (data : List α) (yv : κ)
    (hcomp : ∀ zv ∈ zDom cfg data, (cellIdx cfg data yv zv).isSome)
    (hs : rowSum cfg data yv ≠ 0) :
    rowSegs cfg data yv = (stackRow (wsRow cfg data yv)).map (fun p => (p.1, some p.2)) := by
  have h := map_hi1_eq cfg data yv hcomp hs
  unfold rowSegs
  rw [h]
  cases wsRow cfg data yv with
  | nil => rfl
  | cons w t =>
    simp only [List.map_cons, cumAux_real, stackRow]

/-! ### The default x-domain of a complete positive chart is the unit interval -/

theorem min?_eq_some_of (l : List ℚ) (a : ℚ) (ha : a ∈ l) (hle : ∀ x ∈ l, a ≤ x) :
    l.min? = some a := by
  haveI : Std.Antisymm ((· ≤ ·) : ℚ → ℚ → Prop) := ⟨le_antisymm⟩
  rw [List.min?_eq_some_iff (fun x => le_refl x) (fun x y => min_choice x y)
    (fun x y z => le_min_iff)]
  exact ⟨ha, hle⟩

theorem max?_eq_some_of (l : List ℚ) (b : ℚ) (hb : b ∈ l) (hle : ∀ x ∈ l, x ≤ b) :
    l.max? = some b := by
  haveI : Std.Antisymm ((· ≤ ·) : ℚ → ℚ → Prop) := ⟨le_antisymm⟩
  rw [List.max?_eq_some_iff (fun x => le_refl x) (fun x y => max_choice x y)
    (fun x y z => max_le_iff)]
  exact ⟨hb, hle⟩

theorem extent2_eq (l : List ℚ) (a b : ℚ) (ha : a ∈ l) (hb : b ∈ l)
    (hab : ∀ x ∈ l, a ≤ x ∧ x ≤ b) : extent2 l = some (a, b) := by
  rw [extent2, min?_eq_some_of l a ha (fun x hx => (hab x hx).1),
    max?_eq_some_of l b hb (fun x hx => (hab x hx).2)]

theorem mem_allBounds (cfg : ChartConfig α κ) (data : List α) (x : ℚ) :
    x ∈ allBounds cfg data ↔
      ∃ yv ∈ rowKeys cfg data, ∃ s ∈ rowSegs cfg data yv, x = s.1 ∨ s.2 = some x := by
  simp only [allBounds, List.mem_flatMap, List.mem_cons]
  constructor
  · rintro ⟨yv, hyv, s, hseg, h | h⟩
    · exact ⟨yv, hyv, s, hseg, Or.inl h⟩
    · rw [Option.mem_toList, Option.mem_def] at h
      exact ⟨yv, hyv, s, hseg, Or.inr h⟩
  · rintro ⟨yv, hyv, s, hseg, h | h⟩
    · exact ⟨yv, hyv, s, hseg, Or.inl h⟩
    · exact ⟨yv, hyv, s, hseg, Or.inr (by rw [Option.mem_toList, Option.mem_def]; exact h)⟩

theorem xDomainVal_unit (cfg : ChartConfig α κ) (data : List α)
    (hxd : cfg.xDomain? = none)
    (hpos : ∀ i ∈ idxs cfg data, 0 ≤ Xf cfg data i)
    (hcomp : ∀ yv ∈ rowKeys cfg data, ∀ zv ∈ zDom cfg data,
      (cellIdx cfg data yv zv).isSome)
    (hs : ∀ yv ∈ rowKeys cfg data, rowSum cfg data yv ≠ 0)
    (hne : rowKeys cfg data ≠ []) :
    xDomainVal cfg data = some (0, 1) := by
  unfold xDomainVal
  rw [hxd]
  obtain ⟨yv0, hyv0⟩ := List.exists_mem_of_ne_nil _ hne
  have hws0 : wsRow cfg data yv0 ≠ [] := by
    intro h
    apply zDom_ne_nil_of_rowKeys cfg data yv0 hyv0
    have := wsRow_length cfg data yv0
    rw [h] at this
    exact List.eq_nil_of_length_eq_zero this.symm
  apply extent2_eq
  · -- 0 is a bound: the first segment of any row starts at 0
    obtain ⟨p, hp, hp1⟩ := stackRow_head (wsRow cfg data yv0) hws0
    rw [mem_allBounds]
    refine ⟨yv0, hyv0, (p.1, some p.2), ?_, Or.inl hp1.symm⟩
    rw [rowSegs_real cfg data yv0 (hcomp yv0 hyv0) (hs yv0 hyv0)]
    exact List.mem_map_of_mem _ hp
  · -- 1 is a bound: the last segment of any row ends at the normalised total
    obtain ⟨p, hp, hp2⟩ := stackRow_last (wsRow cfg data yv0) hws0
    rw [mem_allBounds]
    refine ⟨yv0, hyv0, (p.1, some p.2), ?_, Or.inr ?_⟩
    · rw [rowSegs_real cfg data yv0 (hcomp yv0 hyv0) (hs yv0 hyv0)]
      exact List.mem_map_of_mem _ hp
    · rw [hp2, wsRow_sum cfg data yv0 (hs yv0 hyv0)]
  · -- all bounds lie in [0, 1]
    intro x hx
    rw [mem_allBounds] at hx
    obtain ⟨yv, hyv, s, hseg, hcase⟩ := hx
    rw [rowSegs_real cfg data yv (hcomp yv hyv) (hs yv hyv), List.mem_map] at hseg
    obtain ⟨p, hp, rfl⟩ := hseg
    obtain ⟨h0, h12, h2⟩ := stackRow_bounds (wsRow cfg data yv)
      (wsRow_nonneg cfg data yv hpos) p hp
    rw [wsRow_sum cfg data yv (hs yv hyv)] at h2
    rcases hcase with rfl | hx2
    · exact ⟨h0, le_trans h12 h2⟩
    · have : x = p.2 := by simpa using hx2.symm
      subst this
      exact ⟨le_trans h0 h12, h2⟩

theorem sx_unit (cfg : ChartConfig α κ) (data : List α)
    (hdom : xDomainVal cfg data = some (0, 1)) (t : ℚ) :
    sx cfg data (some t) =
      some ((xRangeVal cfg).1 + t * ((xRangeVal cfg).2 - (xRangeVal cfg).1)) := by
  rw [sx, hdom]
  simp only [scaleLin]
  rw [if_neg (by decide)]
  congr 1
  rw [jadd_eq, jmul_eq, jdiv_eq, jsub_eq, jsub_eq, jsub_eq]
  norm_num

end StackedBar

theorem oadd2_fold_map {β : Type} (l : List β) (g : β → ℚ) :
    (l.map (fun p => some (g p))).foldr oadd2 (some 0) = some ((l.map g).sum) := by
  rw [show l.map (fun p => some (g p)) = (l.map g).map some from by rw [List.map_map]; rfl]
  exact oadd2_fold _

namespace StackedBar

variable {α κ : Type} [DecidableEq κ] [Inhabited κ]

theorem rowWidthSum_real (cfg : ChartConfig α κ) (data : List α) (yv : κ)
    (hdom : xDomainVal cfg data = some (0, 1))
    (hcomp : ∀ zv ∈ zDom cfg data, (cellIdx cfg data yv zv).isSome)
    (hs : rowSum cfg data yv ≠ 0)
    (hnn : ∀ w ∈ wsRow cfg data yv, 0 ≤ w) :
    rowWidthSum cfg data yv = some |(xRangeVal cfg).2 - (xRangeVal cfg).1| := by
  have hreal := rowSegs_real cfg data yv hcomp hs
  rw [rowWidthSum, rowWidths, hreal, List.map_map]
  have hmapw : (stackRow (wsRow cfg data yv)).map (segW cfg data ∘ (fun p => (p.1, some p.2)))
      = (stackRow (wsRow cfg data yv)).map
        (fun p => some ((p.2 - p.1) * |(xRangeVal cfg).2 - (xRangeVal cfg).1|)) := by
    apply List.map_congr_left
    intro p hp
    obtain ⟨h0, h12, h2⟩ := stackRow_bounds _ hnn p hp
    simp only [Function.comp_apply]
    rw [segW]
    rw [sx_unit cfg data hdom p.1, sx_unit cfg data hdom p.2]
    simp only [oabs2]
    rw [jsub_eq]
    have harg : ((xRangeVal cfg).1 + p.1 * ((xRangeVal cfg).2 - (xRangeVal cfg).1))
        - ((xRangeVal cfg).1 + p.2 * ((xRangeVal cfg).2 - (xRangeVal cfg).1))
        = (p.1 - p.2) * ((xRangeVal cfg).2 - (xRangeVal cfg).1) := by ring
    rw [harg, abs_mul, abs_sub_comm, abs_of_nonneg (sub_nonneg.mpr h12)]
  rw [hmapw, oadd2_fold_map, List.sum_map_mul_right]
  have hd : (stackRow (wsRow cfg data yv)).map (fun p => p.2 - p.1)
      = (stackRow (wsRow cfg data yv)).map (fun p => jsub p.2 p.1) :=
    List.map_congr_left (fun p _ => (jsub_eq p.2 p.1).symm)
  rw [hd, stackRow_diffs, wsRow_sum cfg data yv hs, one_mul]

end StackedBar

/-! ### Band-scale lemmas -/

theorem bandStep_pos (n : ℕ) (r0 r1 p : ℚ) (h : r1 < r0) : 0 < bandStep n r0 r1 p := by
  rw [bandStep, if_pos h, if_pos h, jdiv_eq, jsub_eq]
  apply div_pos (sub_pos.mpr h)
  exact lt_of_lt_of_le one_pos (le_max_left 1 _)

theorem bandPositions_reverse (n : ℕ) (r0 r1 p : ℚ) (h : r1 < r0) (j : ℕ) (hj : j < n) :
    (bandPositions n r0 r1 p).get? j = some (bandPos1 n r0 r1 p (n - 1 - j)) := by
  rw [bandPositions, if_pos h]
  have hlen : ((List.range n).map (bandPos1 n r0 r1 p)).length = n := by
    rw [List.length_map, List.length_range]
  rw [List.get?_eq_getElem?, List.getElem?_reverse (by rw [hlen]; exact hj), hlen,
    List.getElem?_map, List.getElem?_range (by omega)]
  rfl

theorem findIdx?_nodup_aux {β : Type} [DecidableEq β] :
    ∀ (l : List β), l.Nodup → ∀ (j : ℕ) (d : β), j < l.length →
      ∀ s, l.findIdx? (fun b => decide (b = l.getD j d)) s = some (s + j) := by
  intro l
  induction l with
  | nil => intro _ j d hj; simp at hj
  | cons a t ih =>
    intro hnd j d hj s
    cases j with
    | zero =>
      rw [List.findIdx?_cons]
      simp
    | succ j' =>
      have hj' : j' < t.length := by simpa using hj
      have hne : a ≠ t.getD j' d := by
        intro he
        have hmem : t.getD j' d ∈ t := by
          rw [List.getD_eq_getElem t d hj']
          exact List.getElem_mem hj'
        rw [← he] at hmem
        exact (List.nodup_cons.mp hnd).1 hmem
      rw [List.findIdx?_cons]
      simp only [List.getD_cons_succ]
      rw [if_neg (by simpa using hne)]
      rw [ih (List.nodup_cons.mp hnd).2 j' d hj' (s + 1)]
      congr 1
      omega

theorem findIdx?_nodup {β : Type} [DecidableEq β] (l : List β) (hnd : l.Nodup)
    (j : ℕ) (d : β) (hj : j < l.length) :
    l.findIdx? (fun b => decide (b = l.getD j d)) = some j := by
  have := findIdx?_nodup_aux l hnd j d hj 0
  simpa using this

namespace StackedBar

variable {α κ : Type} [DecidableEq κ] [Inhabited κ]

theorem yDom_nodup (cfg : ChartConfig α κ) (data : List α) : (yDom cfg data).Nodup := by
  rw [yDom]; exact uniqFirst_nodup _

theorem zDom_nodup (cfg : ChartConfig α κ) (data : List α) : (zDom cfg data).Nodup := by
  rw [zDom]; exact uniqFirst_nodup _

theorem rowKeys_nodup (cfg : ChartConfig α κ) (data : List α) : (rowKeys cfg data).Nodup := by
  rw [rowKeys]; exact uniqFirst_nodup _

theorem yScalePos_getD (cfg : ChartConfig α κ) (data : List α) (j : ℕ)
    (hj : j < (yDom cfg data).length) :
    yScalePos cfg data ((yDom cfg data).getD j default) =
      (bandPositions (yDom cfg data).length (yRangeVal cfg data).1
        (yRangeVal cfg data).2 cfg.yPadding).get? j := by
  rw [yScalePos, findIdx?_nodup _ (yDom_nodup cfg data) j default hj]
  rfl

end StackedBar

theorem bandPos1_strict (n : ℕ) (r0 r1 p : ℚ) (h : r1 < r0) (i i' : ℕ) (hii : i < i') :
    bandPos1 n r0 r1 p i < bandPos1 n r0 r1 p i' := by
  rw [bandPos1, bandPos1, jadd_eq, jadd_eq, jmul_eq, jmul_eq, qnat_eq, qnat_eq]
  have hstep := bandStep_pos n r0 r1 p h
  have hcast : (i : ℚ) < (i' : ℚ) := by exact_mod_cast hii
  exact add_lt_add_left (mul_lt_mul_of_pos_left hcast hstep) _

/-! ### Counting segments of the emission grid -/

theorem count_pair_map {κ : Type} [DecidableEq κ] (K : List κ) (yv : κ) (zv : ℤ)
    (hK : K.Nodup) (hy : yv ∈ K) : (K.map (fun y => (y, zv))).count (yv, zv) = 1 := by
  induction K with
  | nil => simp at hy
  | cons k K' ih =>
    rw [List.map_cons, List.count_cons]
    rcases List.mem_cons.mp hy with rfl | hy'
    · have h0 : (K'.map (fun y => (y, zv))).count (yv, zv) = 0 := by
        rw [List.count_eq_zero]
        intro hmem
        rw [List.mem_map] at hmem
        obtain ⟨y', hy', he⟩ := hmem
        have hyy : y' = yv := congrArg Prod.fst he
        exact (List.nodup_cons.mp hK).1 (hyy ▸ hy')
      rw [h0]
      simp
    · have hne : yv ≠ k := fun he => (List.nodup_cons.mp hK).1 (he ▸ hy')
      rw [ih (List.nodup_cons.mp hK).2 hy']
      have hb : ((k, zv) == (yv, zv)) = false := by
        rw [beq_eq_false_iff_ne]
        exact fun he => hne (congrArg Prod.fst he).symm
      rw [hb]
      simp

theorem pairGrid_count {κ : Type} [DecidableEq κ] (D : List ℤ) (K : List κ) (yv : κ) (zv : ℤ)
    (hD : D.Nodup) (hK : K.Nodup) (hy : yv ∈ K) (hz : zv ∈ D) :
    (D.flatMap (fun z => K.map (fun y => (y, z)))).count (yv, zv) = 1 := by
  induction D with
  | nil => simp at hz
  | cons z D' ih =>
    rw [List.flatMap_cons, List.count_append]
    rcases List.mem_cons.mp hz with rfl | hz'
    · have h1 : (K.map (fun y => (y, zv))).count (yv, zv) = 1 :=
        count_pair_map K yv zv hK hy
      have h2 : (D'.flatMap (fun z => K.map (fun y => (y, z)))).count (yv, zv) = 0 := by
        rw [List.count_eq_zero]
        intro hmem
        rw [List.mem_flatMap] at hmem
        obtain ⟨z', hz', hmm⟩ := hmem
        rw [List.mem_map] at hmm
        obtain ⟨y', _, he⟩ := hmm
        have hz2 : z' = zv := congrArg Prod.snd he
        exact (List.nodup_cons.mp hD).1 (hz2 ▸ hz')
      rw [h1, h2]
    · have hzne : z ≠ zv := fun he => (List.nodup_cons.mp hD).1 (he ▸ hz')
      have h1 : (K.map (fun y => (y, z))).count (yv, zv) = 0 := by
        rw [List.count_eq_zero]
        intro hmem
        rw [List.mem_map] at hmem
        obtain ⟨y', _, he⟩ := hmem
        exact hzne (congrArg Prod.snd he)
      rw [h1, ih (List.nodup_cons.mp hD).2 hz', zero_add]

namespace StackedBar

variable {α κ : Type} [DecidableEq κ] [Inhabited κ]

theorem length_Yv (cfg : ChartConfig α κ) (data : List α) :
    (Yv cfg data).length = data.length :=
  List.length_mapIdx

theorem length_Zv (cfg : ChartConfig α κ) (data : List α) :
    (Zv cfg data).length = data.length :=
  List.length_mapIdx

theorem Yf_mem_yDom (cfg : ChartConfig α κ) (data : List α) (i : ℕ)
    (hy : cfg.yDomain? = none) (hi : i < data.length) :
    Yf cfg data i ∈ yDom cfg data := by
  rw [yDom, hy, Option.getD_none, mem_uniqFirst]
  rw [Yf, List.getD_eq_getElem _ _ (by rw [length_Yv]; exact hi)]
  exact List.getElem_mem _

theorem Zf_mem_zDom (cfg : ChartConfig α κ) (data : List α) (i : ℕ)
    (hz : cfg.zDomain? = none) (hi : i < data.length) :
    Zf cfg data i ∈ zDom cfg data := by
  rw [zDom, hz, Option.getD_none, mem_uniqFirst]
  rw [Zf, List.getD_eq_getElem _ _ (by rw [length_Zv]; exact hi)]
  exact List.getElem_mem _

theorem count_segPairs (cfg : ChartConfig α κ) (data : List α) (yv : κ) (zv : ℤ)
    (hy : yv ∈ rowKeys cfg data) (hz : zv ∈ zDom cfg data) :
    (segPairs cfg data).count (yv, zv) = 1 := by
  rw [segPairs]
  exact pairGrid_count _ _ yv zv (zDom_nodup cfg data) (rowKeys_nodup cfg data) hy hz

end StackedBar

/-! ### Claim theorems -/

open StackedBar AuthConfig

/-- Claim C2: for every input sequence and configuration, exactly the indices
whose extracted category and series values both belong to the resolved
domains are kept: the filtered index list contains `i` iff `i` is in range
and `Y[i]`, `Z[i]` lie in the category- and series-domain; every stacked
segment's back-reference index comes from the filtered list; and every
emitted stack row corresponds to some surviving record.  Records outside
either domain therefore contribute nothing, and the (total) pipeline raises
no error on them. -/
theorem C2_domain_filter_exact {α κ : Type} [DecidableEq κ] [Inhabited κ]
    (cfg : ChartConfig α κ) (data : List α) :
    (∀ i, i ∈ idxs cfg data ↔
        i < data.length ∧ Yf cfg data i ∈ yDom cfg data ∧ Zf cfg data i ∈ zDom cfg data)
      ∧ (∀ (yv : κ) (zv : ℤ) (i : ℕ), cellIdx cfg data yv zv = some i → i ∈ idxs cfg data)
      ∧ (∀ yv ∈ rowKeys cfg data, ∃ i ∈ idxs cfg data, Yf cfg data i = yv) :=
  ⟨mem_idxs cfg data,
   fun yv zv i h => (cellIdx_mem cfg data yv zv i h).1,
   fun yv hyv => (mem_rowKeys cfg data yv).mp hyv⟩

/-- Witness for C2: index 0 of the scenario data survives the default-domain
filter; under a supplied category domain `["B"]` the record with category
"A" is dropped and the chart has no stack row at all. -/
theorem C2_domain_filter_exact_witness :
    (0 : ℕ) ∈ idxs recCfg dataS1
      ∧ (0 : ℕ) ∉ idxs cfgOnlyB dataS1 ∧ rowKeys cfgOnlyB dataS1 = [] :=
  ⟨((C2_domain_filter_exact recCfg dataS1).1 0).mpr (by decide), by decide, by decide⟩

/-- Claim C3: when the height option is omitted, the outer height equals
(number of distinct categories in the resolved category domain) × 25 plus
the top and bottom margins; the resolved category domain is duplicate-free,
so its length is the number of distinct categories. -/
theorem C3_derived_height {α κ : Type} [DecidableEq κ] [Inhabited κ]
    (cfg : ChartConfig α κ) (data : List α) (h : cfg.height? = none) :
    heightVal cfg data
        = ((yDom cfg data).length : ℚ) * 25 + cfg.marginTop + cfg.marginBottom
      ∧ (yDom cfg data).Nodup := by
  constructor
  · rw [heightVal, h, Option.getD_none, jadd_eq, jadd_eq, jmul_eq, qnat_eq]
  · exact yDom_nodup cfg data

/-- Witness for C3: with a supplied four-member category domain and omitted
height, the derived outer height is 4 × 25 + 30 + 0 = 130. -/
theorem C3_derived_height_witness :
    heightVal cfgFourCats dataOne
        = ((yDom cfgFourCats dataOne).length : ℚ) * 25
          + cfgFourCats.marginTop + cfgFourCats.marginBottom
      ∧ heightVal cfgFourCats dataOne = 130
      ∧ (yDom cfgFourCats dataOne).length = 4 :=
  ⟨(C3_derived_height cfgFourCats dataOne rfl).1, by decide, by decide⟩

/-- Claim C8: the logger callback suppresses any message whose
contains-sensitive-data flag is set, and otherwise routes the message
unchanged to exactly the sink matching its severity (error to the error
sink, info to the info sink, verbose to the debug sink, warning to the
warning sink). -/
theorem C8_logger_routes_by_severity (level : LogLevel) (message : String)
    (containsPii : Bool) :
    loggerCallback level message containsPii
      = if containsPii then none else some (sinkFor level, message) := by
  cases containsPii <;> cases level <;> rfl

/-- Claim C4 (code evaluated at the failing input): for the record with
series value 4, the glyph lookup `[...][Z[i] - 1]` indexes past the
three-element list and is `undefined`; the builder raises no error and
emits the overlay image anyway — with no defined `href`, yet with the full
420-pixel geometry of its rectangle.  This exhibits the divergence between
the code and the claim's required defined error. -/
theorem C4_out_of_range_glyph_emits_undefined_href :
    glyphHref 4 = none
      ∧ ∃ im ∈ (images recCfg dataSer4).flatten, im.href = none ∧ im.w = some 420 := by
  decide

/-- Claim C5 (code evaluated at the failing input): with a supplied empty
category domain the builder does not fail: it silently produces a
degenerate artifact whose height collapses to `marginTop + marginBottom`
(= 30 pixels) and which contains no rectangle and no image at all. -/
theorem C5_empty_domain_silent_degenerate :
    heightVal cfgEmptyDom dataOne = jadd cfgEmptyDom.marginTop cfgEmptyDom.marginBottom
      ∧ heightVal cfgEmptyDom dataOne = 30
      ∧ yDom cfgEmptyDom dataOne = []
      ∧ (rects cfgEmptyDom dataOne).flatten = []
      ∧ (images cfgEmptyDom dataOne).flatten = [] := by
  decide

/-- Claim C6: when two distinct records share the same (category, series)
pair (under the default domains, so both survive filtering), the emission
grid contains exactly one stacked segment for that pair, and that segment's
raw value is the quantity of a single retained record — the quantities are
not aggregated. -/
theorem C6_duplicate_pair_single_segment {α κ : Type} [DecidableEq κ] [Inhabited κ]
    (cfg : ChartConfig α κ) (data : List α)
    (hyD : cfg.yDomain? = none) (hzD : cfg.zDomain? = none)
    (i j : ℕ) (hi : i < data.length) (hj : j < data.length) (hne : i ≠ j)
    (hyy : Yf cfg data i = Yf cfg data j) (hzz : Zf cfg data i = Zf cfg data j) :
    (segPairs cfg data).count (Yf cfg data i, Zf cfg data i) = 1
      ∧ ∃ i0, cellIdx cfg data (Yf cfg data i) (Zf cfg data i) = some i0
          ∧ v0 cfg data (Yf cfg data i) (Zf cfg data i) = some (Xf cfg data i0) := by
  have hiI : i ∈ idxs cfg data := (mem_idxs cfg data i).mpr
    ⟨hi, Yf_mem_yDom cfg data i hyD hi, Zf_mem_zDom cfg data i hzD hi⟩
  have hrow : Yf cfg data i ∈ rowKeys cfg data :=
    (mem_rowKeys cfg data _).mpr ⟨i, hiI, rfl⟩
  have hzdom : Zf cfg data i ∈ zDom cfg data := Zf_mem_zDom cfg data i hzD hi
  refine ⟨count_segPairs cfg data _ _ hrow hzdom, ?_⟩
  obtain ⟨i0, hi0⟩ := Option.isSome_iff_exists.mp (cellIdx_isSome_of cfg data i hiI)
  exact ⟨i0, hi0, by rw [v0, hi0]; rfl⟩

/-- Witness for C6: the two colliding records of `dataDup` yield exactly one
segment for the pair ("A", 1), whose raw value 3 is the first record's
quantity, not the aggregate 4. -/
theorem C6_duplicate_pair_single_segment_witness :
    (segPairs recCfg dataDup).count ("A", 1) = 1
      ∧ v0 recCfg dataDup "A" 1 = some 3 :=
  ⟨(C6_duplicate_pair_single_segment recCfg dataDup rfl rfl 0 1 (by decide) (by decide)
      (by decide) (by decide) (by decide)).1,
   by decide⟩

/-- Claim C9: the grouping reducer keeps the first record of each colliding
group: the retained cell index is the head of the filtered indices matching
the (category, series) pair; it is the least matching filtered index; and
the segment's raw value is the quantity of that first record. -/
theorem C9_collision_retains_first {α κ : Type} [DecidableEq κ] [Inhabited κ]
    (cfg : ChartConfig α κ) (data : List α) (yv : κ) (zv : ℤ) :
    cellIdx cfg data yv zv
        = ((idxs cfg data).filter
            (fun i => decide (Yf cfg data i = yv ∧ Zf cfg data i = zv))).head?
      ∧ (∀ i0, cellIdx cfg data yv zv = some i0 →
          ∀ i' ∈ idxs cfg data, Yf cfg data i' = yv → Zf cfg data i' = zv → i0 ≤ i')
      ∧ (∀ i0, cellIdx cfg data yv zv = some i0 →
          v0 cfg data yv zv = some (Xf cfg data i0)) := by
  have hhead : cellIdx cfg data yv zv
      = ((idxs cfg data).filter
          (fun i => decide (Yf cfg data i = yv ∧ Zf cfg data i = zv))).head? := by
    rw [cellIdx, find?_eq_head_filter, List.filter_filter]
    congr 1
    apply List.filter_congr
    intro i _
    by_cases h1 : Yf cfg data i = yv <;> by_cases h2 : Zf cfg data i = zv <;>
      simp [h1, h2]
  refine ⟨hhead, ?_, ?_⟩
  · intro i0 h0 i' hi' hy' hz'
    rw [hhead] at h0
    have hsorted : ((idxs cfg data).filter
        (fun i => decide (Yf cfg data i = yv ∧ Zf cfg data i = zv))).Pairwise (· < ·) :=
      (idxs_sorted cfg data).filter _
    have hmem : i' ∈ (idxs cfg data).filter
        (fun i => decide (Yf cfg data i = yv ∧ Zf cfg data i = zv)) := by
      rw [List.mem_filter]
      exact ⟨hi', by simp [hy', hz']⟩
    rcases hfl : (idxs cfg data).filter
        (fun i => decide (Yf cfg data i = yv ∧ Zf cfg data i = zv)) with _ | ⟨b, t⟩
    · rw [hfl] at hmem; exact absurd hmem (List.not_mem_nil i')
    · rw [hfl] at h0 hmem hsorted
      have hb : b = i0 := by simpa using h0
      subst hb
      rcases List.mem_cons.mp hmem with rfl | hmem'
      · exact le_rfl
      · exact le_of_lt (List.rel_of_pairwise_cons hsorted hmem')
  · intro i0 h0
    rw [v0, h0]
    rfl

/-- Witness for C9: on the colliding records of `dataDup` the retained index
is 0 (the first), so the segment carries quantity 3, while the colliding
later record carries quantity 1. -/
theorem C9_collision_retains_first_witness :
    cellIdx recCfg dataDup "A" 1 = some 0
      ∧ v0 recCfg dataDup "A" 1 = some 3
      ∧ Xf recCfg dataDup 0 = 3 ∧ Xf recCfg dataDup 1 = 1 :=
  ⟨by decide,
   (C9_collision_retains_first recCfg dataDup "A" 1).2.2 0 (by decide),
   by decide, by decide⟩

/-- Claim C1 (counterexample): row "B" of `dataZeroRow` is present in the
chart (it gets a band and a rectangle), but its quantities sum to zero, so
`d3.stackOffsetExpand` skips the normalisation (`if (y)`) and the row's
segment widths sum to 0 — not to the full 420-pixel plot width.  The claim
as stated, quantified over every input and every row, is therefore false. -/
theorem C1_zero_sum_row_not_full_width :
    "B" ∈ rowKeys recCfg dataZeroRow
      ∧ rowWidthSum recCfg dataZeroRow "B" = some 0
      ∧ jsub (xRangeVal recCfg).2 (xRangeVal recCfg).1 = 420 := by
  decide

/-- Claim C1 (amended): under the default offset strategy and the default
(extent-derived) quantitative domain, for every input whose surviving
quantities are non-negative and in which every chart row has a record for
every series of the series-domain and a non-zero quantity sum, the segment
widths of every row sum to the full pixel width of the plot area. -/
theorem C1_rows_partition_full_width {α κ : Type} [DecidableEq κ] [Inhabited κ]
    (cfg : ChartConfig α κ) (data : List α)
    (hxd : cfg.xDomain? = none)
    (hpos : ∀ i ∈ idxs cfg data, 0 ≤ Xf cfg data i)
    (hcomp : ∀ yv ∈ rowKeys cfg data, ∀ zv ∈ zDom cfg data,
      (cellIdx cfg data yv zv).isSome)
    (hs : ∀ yv ∈ rowKeys cfg data, rowSum cfg data yv ≠ 0)
    (yv : κ) (hyv : yv ∈ rowKeys cfg data) :
    rowWidthSum cfg data yv = some |(xRangeVal cfg).2 - (xRangeVal cfg).1| := by
  have hne : rowKeys cfg data ≠ [] := by
    intro hnil
    rw [hnil] at hyv
    exact absurd hyv (List.not_mem_nil _)
  have hdom := xDomainVal_unit cfg data hxd hpos hcomp hs hne
  exact rowWidthSum_real cfg data yv hdom (hcomp yv hyv) (hs yv hyv)
    (wsRow_nonneg cfg data yv hpos)

/-- Witness for C1 (scenario 1): the records
`[{cat:"A",ser:1,q:3},{cat:"A",ser:2,q:1}]` give row "A" exactly two
segments of pixel widths 315 and 105 — ratio 3:1 — summing to the full
420-pixel plot width. -/
theorem C1_rows_partition_full_width_witness :
    rowWidthSum recCfg dataS1 "A" = some |(xRangeVal recCfg).2 - (xRangeVal recCfg).1|
      ∧ rowWidths recCfg dataS1 "A" = [some 315, some 105]
      ∧ (315 : ℤ) = 3 * 105
      ∧ rowWidthSum recCfg dataS1 "A" = some 420 :=
  ⟨C1_rows_partition_full_width recCfg dataS1 rfl (by decide) (by decide) (by decide)
      "A" (by decide),
   by decide, by decide, by decide⟩

/-- Claim C7 (counterexample): with the default derived y-range, the first
category "A" of the resolved domain does not occupy the topmost band: its
band starts at pixel 1070/19 ≈ 56.3 while the second category "B" starts at
pixel 30 (the top margin).  The first category is at the bottom, not the
top. -/
theorem C7_first_category_not_topmost :
    yDom recCfg dataTwoCats = ["A", "B"]
      ∧ yScalePos recCfg dataTwoCats "A" = some (mkRat 1070 19)
      ∧ yScalePos recCfg dataTwoCats "B" = some 30
      ∧ ¬ (mkRat 1070 19 ≤ 30) := by
  decide

/-- Claim C7 (amended): when the y-range is not overridden it defaults to
`[height - marginBottom, marginTop]`, and because `d3.scaleBand` reverses a
decreasing range, band positions strictly decrease along the category
domain: every later category sits strictly higher (smaller pixel
coordinate) than every earlier one — the first category occupies the
bottommost band and the last the topmost. -/
theorem C7_default_bands_run_bottom_to_top {α κ : Type} [DecidableEq κ] [Inhabited κ]
    (cfg : ChartConfig α κ) (data : List α)
    (hyr : cfg.yRange? = none)
    (hm : cfg.marginTop < jsub (heightVal cfg data) cfg.marginBottom)
    (j j' : ℕ) (hjj : j < j') (hj' : j' < (yDom cfg data).length) :
    yRangeVal cfg data = (jsub (heightVal cfg data) cfg.marginBottom, cfg.marginTop)
      ∧ ∃ pj pj' : ℚ,
          yScalePos cfg data ((yDom cfg data).getD j default) = some pj
          ∧ yScalePos cfg data ((yDom cfg data).getD j' default) = some pj'
          ∧ pj' < pj := by
  have hyR : yRangeVal cfg data
      = (jsub (heightVal cfg data) cfg.marginBottom, cfg.marginTop) := by
    rw [yRangeVal, hyr, Option.getD_none]
  refine ⟨hyR, ?_⟩
  have hj : j < (yDom cfg data).length := lt_trans hjj hj'
  have hrange : (yRangeVal cfg data).2 < (yRangeVal cfg data).1 := by
    rw [hyR]
    exact hm
  have h1 := yScalePos_getD cfg data j hj
  have h2 := yScalePos_getD cfg data j' hj'
  rw [bandPositions_reverse _ _ _ _ hrange j hj] at h1
  rw [bandPositions_reverse _ _ _ _ hrange j' hj'] at h2
  refine ⟨_, _, h1, h2, ?_⟩
  apply bandPos1_strict _ _ _ _ hrange
  omega

/-- Witness for C7: on `dataTwoCats` (categories "A" then "B", default
configuration) the band of the second category lies strictly above the band
of the first. -/
theorem C7_default_bands_run_bottom_to_top_witness :
    ∃ pj pj' : ℚ,
        yScalePos recCfg dataTwoCats ((yDom recCfg dataTwoCats).getD 0 default) = some pj
        ∧ yScalePos recCfg dataTwoCats ((yDom recCfg dataTwoCats).getD 1 default) = some pj'
        ∧ pj' < pj :=
  (C7_default_bands_run_bottom_to_top recCfg dataTwoCats rfl (by decide) 0 1
    (by decide) (by decide)).2

theorem oabs2_some (A B : Option ℚ) (q : ℚ) (h : oabs2 A B = some q) : 0 ≤ q := by
  cases A with
  | none => simp [oabs2] at h
  | some a =>
    cases B with
    | none => simp [oabs2] at h
    | some b =>
      simp only [oabs2, Option.some.injEq] at h
      rw [← h]
      exact abs_nonneg _

/-- Claim C10 (counterexample): the cell ("B", series 2) of
`dataMissingCell` has no record, so its stacked boundary is `NaN` and the
emitted rectangle for it has `NaN` width — the emitted width is not a
non-negative number, contradicting the claim's "every emitted width is
non-negative". -/
theorem C10_missing_cell_nan_width :
    ∃ r ∈ (rects recCfg dataMissingCell).flatten, ¬ ∃ q : ℚ, r.w = some q ∧ 0 ≤ q := by
  refine ⟨⟨none, none, none, mkRat 450 19⟩, by decide, ?_⟩
  rintro ⟨q, hq, -⟩
  exact Option.noConfusion hq

/-- Claim C10 (amended): every overlay image has exactly the same x, y,
width and height attributes as its rectangle, and every emitted width that
is a number (the boundaries being real) is non-negative, regardless of the
configuration — including reversed pixel ranges.  Widths of rectangles on
missing (category, series) cells are `NaN`, not numbers. -/
theorem C10_rect_image_geometry {α κ : Type} [DecidableEq κ] [Inhabited κ]
    (cfg : ChartConfig α κ) (data : List α) :
    ((images cfg data).map (fun row => row.map (fun im => (im.x, im.y, im.w, im.h)))
        = (rects cfg data).map (fun row => row.map (fun r => (r.x, r.y, r.w, r.h))))
      ∧ (∀ r ∈ (rects cfg data).flatten, ∀ q : ℚ, r.w = some q → 0 ≤ q) := by
  constructor
  · rw [images, rects, List.map_map, List.map_map]
    apply List.map_congr_left
    intro kz _
    simp only [Function.comp_apply, List.map_map]
    apply List.map_congr_left
    intro yv _
    rfl
  · intro r hr q hq
    rw [rects, List.mem_flatten] at hr
    obtain ⟨row, hrow, hrmem⟩ := hr
    rw [List.mem_map] at hrow
    obtain ⟨kz, _, rfl⟩ := hrow
    rw [List.mem_map] at hrmem
    obtain ⟨yv, _, rfl⟩ := hrmem
    rw [segRect] at hq
    exact oabs2_some _ _ q hq

/-- Witness for C10: on the scenario data the image grid carries exactly the
rect geometry, and the first emitted rect has the non-negative width 315. -/
theorem C10_rect_image_geometry_witness :
    ((images recCfg dataS1).map (fun row => row.map (fun im => (im.x, im.y, im.w, im.h)))
        = (rects recCfg dataS1).map (fun row => row.map (fun r => (r.x, r.y, r.w, r.h))))
      ∧ (0 : ℚ) ≤ 315 :=
  ⟨(C10_rect_image_geometry recCfg dataS1).1,
   (C10_rect_image_geometry recCfg dataS1).2
     ⟨some 200, some (mkRat 125 4), some 315, mkRat 45 2⟩ (by decide) 315 (by decide)⟩
